import Mathlib

/-!
Verification of the typed WGSL expression IR of `gpu_img_features`
(`src/wgsl/expression.rs`), shallowly embedded in Lean.

An `Expression<T>` in the source is a pair of a rendered source-text string and a
phantom semantic type `T`.  Every operation of the IR builds a new string from the
strings of its operands, so the embedding represents an expression as a structure
holding the rendered text, indexed by the semantic type, and each Rust item
(operator impl, `From` conversion, accessor method) becomes a Lean function on
those structures producing exactly the text the Rust `format!` call produces.

Rust `f32` values appear in the source only through their `Display`-formatted
text (`{}` in a format string); floating-point values and their decimal
formatting are outside the embedding, so an `f32` operand is carried as the text
Rust would print for it (`F32Text`).  `i32`/`u32` `Display` formatting is plain
decimal and is embedded executably (`intDisplay`, `natDisplay`).
-/

namespace GpuImg

/-- The scalar semantic types of the IR (`i32`, `u32`, `f32`). -/
inductive Scalar where
  | i32
  | u32
  | f32
deriving DecidableEq

/-- The semantic (phantom) types of `Expression<T>`: scalars and 2/3/4-component
vectors over a scalar, mirroring the nalgebra vector aliases used by the source
(`IVec2 = Vector2<i32>`, `FVec3 = Vector3<f32>`, `FVec4 = Vector4<f32>`). -/
inductive Ty where
  | scalar (s : Scalar)
  | vec2 (s : Scalar)
  | vec3 (s : Scalar)
  | vec4 (s : Scalar)
deriving DecidableEq

/-- Modelled from the spec: the Type Registry maps each semantic value type to its
target-kernel-language type name.  The module defining `ShaderTypeExt::wgsl_type_name`
(`src/wgsl/mod.rs`) is not under src/, so the names follow the WGSL naming scheme
the spec describes for scalar names. -/
def scalarName : Scalar → String
  | .i32 => "i32"
  | .u32 => "u32"
  | .f32 => "f32"

/-- Modelled from the spec: the Type Registry's target-language type name of a
semantic type (`wgsl_type_name`), missing from src/; vector types use the WGSL
`vecN<scalar>` naming scheme. -/
def wgslTypeName : Ty → String
  | .scalar s => scalarName s
  | .vec2 s => "vec2<" ++ scalarName s ++ ">"
  | .vec3 s => "vec3<" ++ scalarName s ++ ">"
  | .vec4 s => "vec4<" ++ scalarName s ++ ">"

/-- A Rust `f32` value, represented by the text that Rust `Display` formatting
(`{}` in a format string) produces for it.  The bit-level float value and its
decimal formatting are not modelled; every place the source formats an `f32`
with `{}` uses this carried text. -/
structure F32Text where
  disp : String
deriving DecidableEq

/-- `Expression<T>` from `src/wgsl/expression.rs`: field `.0` is the rendered
text, the phantom parameter is the semantic type. -/
structure Expression (t : Ty) where
  code : String
deriving DecidableEq

/-- `Expression::new(code)`: wraps a rendered string. -/
def Expression.new (t : Ty) (code : String) : Expression t := ⟨code⟩

/-- The `Clone` impl for `Expression<T>`: duplicates the stored text. -/
def Expression.clone {t : Ty} (e : Expression t) : Expression t := ⟨e.code⟩

/-- The `Wgsl` impl for `Expression<T>`: `wgsl()` returns a copy of the stored text. -/
def Expression.wgsl {t : Ty} (e : Expression t) : String := e.code

/-- The `Display` impl for `Expression<T>`: `write!(f, "{}", self.0)`. -/
def Expression.displayText {t : Ty} (e : Expression t) : String := e.code

/-- `impl_Op_for_Expression!(Add, "+")`: renders `({} {} {})` with the lhs text,
the operator symbol, and the text of the rhs after its `Into` conversion.  The
operand `b` here is the rhs already converted to an `Expression<T>`. -/
def Expression.add {t : Ty} (a b : Expression t) : Expression t :=
  ⟨"(" ++ a.code ++ " + " ++ b.code ++ ")"⟩

/-- `impl_Op_for_Expression!(Sub, "-")`. -/
def Expression.sub {t : Ty} (a b : Expression t) : Expression t :=
  ⟨"(" ++ a.code ++ " - " ++ b.code ++ ")"⟩

/-- `impl_Op_for_Expression!(Mul, "*")`. -/
def Expression.mul {t : Ty} (a b : Expression t) : Expression t :=
  ⟨"(" ++ a.code ++ " * " ++ b.code ++ ")"⟩

/-- `impl Mul<&Expression<FVec4>> for Expression<f32>`: renders `({self} * {rhs})`. -/
def Expression.mulScalarVec4 (a : Expression (Ty.scalar Scalar.f32))
    (b : Expression (Ty.vec4 Scalar.f32)) : Expression (Ty.vec4 Scalar.f32) :=
  ⟨"(" ++ a.code ++ " * " ++ b.code ++ ")"⟩

/-- `impl Mul<f32> for Expression<FVec3>`: renders `({self} * {rhs})`, where the
rhs is a raw `f32` scalar formatted with `Display`, not an expression. -/
def Expression.mulVec3Scalar (a : Expression (Ty.vec3 Scalar.f32))
    (b : F32Text) : Expression (Ty.vec3 Scalar.f32) :=
  ⟨"(" ++ a.code ++ " * " ++ b.disp ++ ")"⟩

/-- `From<&Expression<u32>> for Expression<i32>`: copies the text unchanged
(the source marks it `//FIXME: double check if this is actually valid`). -/
def Expression.i32FromU32 (e : Expression (Ty.scalar Scalar.u32)) :
    Expression (Ty.scalar Scalar.i32) := ⟨e.code⟩

/-- Decimal digit character for a digit value (values above 9 do not occur). -/
def digitChar (d : Nat) : Char :=
  match d with
  | 0 => '0'
  | 1 => '1'
  | 2 => '2'
  | 3 => '3'
  | 4 => '4'
  | 5 => '5'
  | 6 => '6'
  | 7 => '7'
  | 8 => '8'
  | _ => '9'

/-- Decimal digits of a natural number, most significant first, prepended to
`acc`; structurally recursive on a fuel argument so that it reduces inside the
kernel (the fuel `n + 1` used below always exceeds the digit count). -/
def natDigitsAux : Nat → Nat → List Char → List Char
  | 0, _, acc => acc
  | fuel + 1, n, acc =>
    if n < 10 then digitChar n :: acc
    else natDigitsAux fuel (n / 10) (digitChar (n % 10) :: acc)

/-- Decimal display of a natural number: Rust `Display` for `u32`. -/
def natDisplay (n : Nat) : String := ⟨natDigitsAux (n + 1) n []⟩

/-- Rust `Display` for `i32`: plain decimal with a minus sign for negatives. -/
def intDisplay (v : Int) : String :=
  if v < 0 then "-" ++ natDisplay v.natAbs else natDisplay v.natAbs

/-- `From<i32> for Expression<i32>`: renders `format!("{value}")`. -/
def Expression.fromI32 (v : Int) : Expression (Ty.scalar Scalar.i32) :=
  ⟨intDisplay v⟩

/-- `From<u32> for Expression<u32>`: renders `format!("{value}")`. -/
def Expression.fromU32 (n : Nat) : Expression (Ty.scalar Scalar.u32) :=
  ⟨natDisplay n⟩

/-- `From<IVec2> for Expression<IVec2>`: renders `{type_name}({x}, {y})` with
`IVec2::wgsl_type_name()`. -/
def Expression.fromIVec2 (x y : Int) : Expression (Ty.vec2 Scalar.i32) :=
  ⟨wgslTypeName (Ty.vec2 Scalar.i32) ++ "(" ++ intDisplay x ++ ", " ++ intDisplay y ++ ")"⟩

/-- `From<FVec4> for Expression<FVec4>`: renders `{type_name}({x}, {y}, {z}, {w})`
with `FVec4::wgsl_type_name()`. -/
def Expression.fromFVec4 (x y z w : F32Text) : Expression (Ty.vec4 Scalar.f32) :=
  ⟨wgslTypeName (Ty.vec4 Scalar.f32) ++ "(" ++ x.disp ++ ", " ++ y.disp ++ ", " ++
    z.disp ++ ", " ++ w.disp ++ ")"⟩

/-- `From<FVec3> for Expression<FVec3>`: renders `{type_name}({x}, {y}, {z})`.
NOTE: the source binds `let type_name = FVec4::wgsl_type_name();` — the
4-component vector's type name — inside the `FVec3` conversion. -/
def Expression.fromFVec3 (x y z : F32Text) : Expression (Ty.vec3 Scalar.f32) :=
  ⟨wgslTypeName (Ty.vec4 Scalar.f32) ++ "(" ++ x.disp ++ ", " ++ y.disp ++ ", " ++
    z.disp ++ ")"⟩

/-- `impl_vec3_xyz`: `.x()` on a 3-vector (the macro is instantiated at item
types `f32` and `u32`; the item scalar is a parameter here). -/
def Expression.x3 {s : Scalar} (e : Expression (Ty.vec3 s)) : Expression (Ty.scalar s) :=
  ⟨e.code ++ ".x"⟩

/-- `impl_vec3_xyz`: `.y()` on a 3-vector. -/
def Expression.y3 {s : Scalar} (e : Expression (Ty.vec3 s)) : Expression (Ty.scalar s) :=
  ⟨e.code ++ ".y"⟩

/-- `impl_vec3_xyz`: `.z()` on a 3-vector. -/
def Expression.z3 {s : Scalar} (e : Expression (Ty.vec3 s)) : Expression (Ty.scalar s) :=
  ⟨e.code ++ ".z"⟩

/-- `impl_vec3_xyz`: `.xy()` on a 3-vector. -/
def Expression.xy3 {s : Scalar} (e : Expression (Ty.vec3 s)) : Expression (Ty.vec2 s) :=
  ⟨e.code ++ ".xy"⟩

/-- `impl_vec3_xyz`: `.xyz1()`, the 3-to-4 promotion, renders `vec4({self}.xyz, 1)`. -/
def Expression.xyz1 {s : Scalar} (e : Expression (Ty.vec3 s)) : Expression (Ty.vec4 s) :=
  ⟨"vec4(" ++ e.code ++ ".xyz, 1)"⟩

/-- `impl_vec4_xyzw`: `.x()` on a 4-vector. -/
def Expression.x4 {s : Scalar} (e : Expression (Ty.vec4 s)) : Expression (Ty.scalar s) :=
  ⟨e.code ++ ".x"⟩

/-- `impl_vec4_xyzw`: `.y()` on a 4-vector. -/
def Expression.y4 {s : Scalar} (e : Expression (Ty.vec4 s)) : Expression (Ty.scalar s) :=
  ⟨e.code ++ ".y"⟩

/-- `impl_vec4_xyzw`: `.z()` on a 4-vector. -/
def Expression.z4 {s : Scalar} (e : Expression (Ty.vec4 s)) : Expression (Ty.scalar s) :=
  ⟨e.code ++ ".z"⟩

/-- `impl_vec4_xyzw`: `.w()` on a 4-vector. -/
def Expression.w4 {s : Scalar} (e : Expression (Ty.vec4 s)) : Expression (Ty.scalar s) :=
  ⟨e.code ++ ".w"⟩

/-- `impl_vec4_xyzw`: `.xyz()` on a 4-vector. -/
def Expression.xyz4 {s : Scalar} (e : Expression (Ty.vec4 s)) : Expression (Ty.vec3 s) :=
  ⟨e.code ++ ".xyz"⟩

/-- `Expression<i32>::clamped(min, max)`: renders `clamp({self}, {min_exp}, {max_exp})`;
`min` and `max` are the expressions obtained from the `Into` conversions. -/
def Expression.clamped (e minE maxE : Expression (Ty.scalar Scalar.i32)) :
    Expression (Ty.scalar Scalar.i32) :=
  ⟨"clamp(" ++ e.code ++ ", " ++ minE.code ++ ", " ++ maxE.code ++ ")"⟩

/-- `Expression<IVec2>::construct(x, y)`: renders `{}({}, {})` with
`IVec2::wgsl_type_name()` and the two converted component expressions. -/
def Expression.construct (x y : Expression (Ty.scalar Scalar.i32)) :
    Expression (Ty.vec2 Scalar.i32) :=
  ⟨wgslTypeName (Ty.vec2 Scalar.i32) ++ "(" ++ x.code ++ ", " ++ y.code ++ ")"⟩

/-- The arithmetic operator names of the IR. -/
inductive BinOpName where
  | add
  | sub
  | mul
deriving DecidableEq

/-- The catalog of binary operator impls the source defines on expressions:
the generic `impl_Op_for_Expression` impls give, after the rhs `Into`
conversion, an operator `Expression<T> OP Expression<T> -> Expression<T>` for
every semantic type `T` and each of add, sub, mul; and two extra `Mul` impls
give `Expression<f32> * &Expression<FVec4> -> Expression<FVec4>` and
`Expression<FVec3> * f32 -> Expression<FVec3>`. -/
inductive OpSig : BinOpName → Ty → Ty → Ty → Prop where
  | homo (op : BinOpName) (t : Ty) : OpSig op t t t
  | scalarTimesVec4 :
      OpSig BinOpName.mul (Ty.scalar Scalar.f32) (Ty.vec4 Scalar.f32) (Ty.vec4 Scalar.f32)
  | vec3TimesScalar :
      OpSig BinOpName.mul (Ty.vec3 Scalar.f32) (Ty.scalar Scalar.f32) (Ty.vec3 Scalar.f32)

/-- The space character, written via its code point to keep the scanner free of
a space character literal. -/
def spaceChar : Char := Char.ofNat 32

/-- Sentinel for the "previously seen character" when a scan starts; any
non-space character works. -/
def initChar : Char := 'A'

/-- The binary operator symbols the IR emits. -/
def IsOpChar (c : Char) : Prop := c = '+' ∨ c = '-' ∨ c = '*'

instance (c : Char) : Decidable (IsOpChar c) := by
  unfold IsOpChar
  infer_instance

/-- Operand scanner: walks the characters of a rendered string, tracking the
parenthesis depth `d` and the two previously seen characters `q` (second
previous) and `p` (previous).  It fails (`none`) on a closing parenthesis at
depth 0 and on a spaced binary operator symbol (the three-character pattern
space, operator, space, exactly as the IR emits operators) at depth 0, and
otherwise returns the final depth. -/
def scanA : List Char → Nat → Char → Char → Option Nat
  | [], d, _, _ => some d
  | c :: r, d, q, p =>
    if c = '(' then scanA r (d + 1) p c
    else if c = ')' then
      match d with
      | 0 => none
      | e + 1 => scanA r e p c
    else if c = spaceChar ∧ q = spaceChar ∧ IsOpChar p ∧ d = 0 then none
    else scanA r d p c

/-- A rendered string is a syntactically self-contained operand when scanning it
from depth 0 succeeds and ends at depth 0: its parentheses are balanced and no
spaced binary operator occurs outside all parentheses, so embedding the string
as an operand of a larger expression cannot re-associate it. -/
def selfContained (s : String) : Prop := scanA s.data 0 initChar initChar = some 0

instance (s : String) : Decidable (selfContained s) := by
  unfold selfContained
  infer_instance

/-- Characters that the scanner treats as inert: not a parenthesis, not a space. -/
def InertChar (c : Char) : Prop := c ≠ '(' ∧ c ≠ ')' ∧ c ≠ spaceChar

instance (c : Char) : Decidable (InertChar c) := by
  unfold InertChar
  infer_instance

/-- The last two characters of `l`, seeded with `q` and `p`: the scanner state
reached after walking `l`. -/
def shiftTwo (q p : Char) : List Char → Char × Char
  | [] => (q, p)
  | c :: r => shiftTwo p c r

theorem shiftTwo_cons (q p c : Char) (r : List Char) :
    shiftTwo q p (c :: r) = shiftTwo p c r := rfl

/-- Scanning a concatenation first scans the left part, then continues on the
right part from the resulting depth and character state. -/
theorem scan_append (l₁ l₂ : List Char) (d : Nat) (q p : Char) :
    scanA (l₁ ++ l₂) d q p =
      Option.bind (scanA l₁ d q p)
        (fun e => scanA l₂ e (shiftTwo q p l₁).1 (shiftTwo q p l₁).2) := by
  induction l₁ generalizing d q p with
  | nil => simp [scanA, shiftTwo]
  | cons c r ih =>
    simp only [List.cons_append, List.append_eq, scanA, shiftTwo_cons]
    by_cases h1 : c = '('
    · rw [if_pos h1, if_pos h1, ih]
    · rw [if_neg h1, if_neg h1]
      by_cases h2 : c = ')'
      · rw [if_pos h2, if_pos h2]
        cases d with
        | zero => simp
        | succ e => exact ih e p c
      · rw [if_neg h2, if_neg h2]
        by_cases h3 : c = spaceChar ∧ q = spaceChar ∧ IsOpChar p ∧ d = 0
        · rw [if_pos h3, if_pos h3]
          simp
        · rw [if_neg h3, if_neg h3, ih]

/-- Lifting a successful scan to a strictly positive starting depth: the depth
evolves uniformly, and neither failure (closing parenthesis at depth 0, spaced
operator at depth 0) can occur at positive depth, so the carried character
state becomes irrelevant. -/
theorem scan_lift (l : List Char) (d e k : Nat) (q p q₂ p₂ : Char)
    (h : scanA l d q p = some e) : scanA l (d + k + 1) q₂ p₂ = some (e + k + 1) := by
  induction l generalizing d q p q₂ p₂ with
  | nil =>
    simp only [scanA, Option.some.injEq] at h
    simp [scanA, h]
  | cons c r ih =>
    simp only [scanA] at h ⊢
    by_cases h1 : c = '('
    · rw [if_pos h1] at h ⊢
      have heq : d + k + 1 + 1 = d + 1 + k + 1 := by omega
      rw [heq]
      exact ih (d + 1) p c p₂ c h
    · rw [if_neg h1] at h ⊢
      by_cases h2 : c = ')'
      · rw [if_pos h2] at h ⊢
        cases d with
        | zero => exact absurd h (by simp)
        | succ d' =>
          have h' : scanA r d' p c = some e := h
          have heq : d' + 1 + k = d' + k + 1 := by omega
          rw [heq]
          exact ih d' p c p₂ c h'
      · rw [if_neg h2] at h ⊢
        by_cases h3 : c = spaceChar ∧ q = spaceChar ∧ IsOpChar p ∧ d = 0
        · rw [if_pos h3] at h
          exact absurd h (by simp)
        · rw [if_neg h3] at h
          rw [if_neg (fun hh => Nat.succ_ne_zero (d + k) hh.2.2.2)]
          exact ih d p c p₂ c h

/-- Inert characters pass through the scanner without changing the depth and
without any possibility of failure. -/
theorem scan_inert_append (l rest : List Char) (h : ∀ c ∈ l, InertChar c)
    (d : Nat) (q p : Char) :
    scanA (l ++ rest) d q p =
      scanA rest d (shiftTwo q p l).1 (shiftTwo q p l).2 := by
  induction l generalizing q p with
  | nil => simp [shiftTwo]
  | cons c r ih =>
    have hc : InertChar c := h c (by simp)
    simp only [List.cons_append, scanA, shiftTwo_cons]
    rw [if_neg hc.1, if_neg hc.2.1, if_neg (fun hh => hc.2.2 hh.1)]
    exact ih (fun c hcm => h c (by simp [hcm])) p c

/-- A string of inert characters scans to its starting depth from any state. -/
theorem scan_inert (l : List Char) (h : ∀ c ∈ l, InertChar c) (d : Nat) (q p : Char) :
    scanA l d q p = some d := by
  have := scan_inert_append l [] h d q p
  simpa [scanA] using this

theorem scan_step_inert (c : Char) (hc : InertChar c) (r : List Char) (d : Nat)
    (q p : Char) : scanA (c :: r) d q p = scanA r d p c := by
  simp only [scanA]
  rw [if_neg hc.1, if_neg hc.2.1, if_neg (fun hh => hc.2.2 hh.1)]

theorem scan_step_space (r : List Char) (d : Nat) (hd : d ≠ 0) (q p : Char) :
    scanA (spaceChar :: r) d q p = scanA r d p spaceChar := by
  simp only [scanA]
  rw [if_neg (by decide), if_neg (by decide), if_neg (fun hh => hd hh.2.2.2)]

theorem scan_step_open (r : List Char) (d : Nat) (q p : Char) :
    scanA ('(' :: r) d q p = scanA r (d + 1) p '(' := by
  simp [scanA]

theorem scan_step_close (r : List Char) (d : Nat) (q p : Char) :
    scanA (')' :: r) (d + 1) q p = scanA r d p ')' := by
  simp [scanA]

/-- The tail of a rendered argument list: each further argument is preceded by a
comma and a space, and the list closes with the closing parenthesis. -/
def restArgs : List (List Char) → List Char
  | [] => (")" : String).data
  | a :: more => (", " : String).data ++ (a ++ restArgs more)

theorem scan_restArgs (args : List (List Char))
    (h : ∀ a ∈ args, scanA a 0 initChar initChar = some 0) (q p : Char) :
    scanA (restArgs args) 1 q p = some 0 := by
  induction args generalizing q p with
  | nil =>
    show scanA (')' :: []) (0 + 1) q p = some 0
    rw [scan_step_close]
    rfl
  | cons a more ih =>
    show scanA (',' :: spaceChar :: (a ++ restArgs more)) 1 q p = some 0
    rw [scan_step_inert ',' (by decide), scan_step_space _ 1 one_ne_zero, scan_append]
    have hf : scanA a 1 ',' spaceChar = some 1 := by
      have := scan_lift a 0 0 0 initChar initChar ',' spaceChar (h a (by simp))
      simpa using this
    rw [hf]
    exact ih (fun x hx => h x (by simp [hx])) _ _

theorem scan_callShape (name first : List Char) (args : List (List Char))
    (hn : ∀ c ∈ name, InertChar c)
    (h1 : scanA first 0 initChar initChar = some 0)
    (hargs : ∀ a ∈ args, scanA a 0 initChar initChar = some 0)
    (q p : Char) :
    scanA (name ++ '(' :: (first ++ restArgs args)) 0 q p = some 0 := by
  rw [scan_inert_append name _ hn, scan_step_open, scan_append]
  have hf : scanA first (0 + 1) (shiftTwo q p name).2 '(' = some 1 := by
    have := scan_lift first 0 0 0 initChar initChar (shiftTwo q p name).2 '(' h1
    simpa using this
  rw [hf]
  exact scan_restArgs args hargs _ _

theorem scan_binop (a b : List Char) (o : Char) (ho : InertChar o)
    (ha : scanA a 0 initChar initChar = some 0)
    (hb : scanA b 0 initChar initChar = some 0) (q p : Char) :
    scanA ('(' :: (a ++ spaceChar :: o :: spaceChar :: (b ++ [')']))) 0 q p = some 0 := by
  rw [scan_step_open, scan_append]
  have hf : scanA a (0 + 1) p '(' = some 1 := by
    have := scan_lift a 0 0 0 initChar initChar p '(' ha
    simpa using this
  rw [hf]
  show scanA (spaceChar :: o :: spaceChar :: (b ++ [')'])) 1 _ _ = some 0
  rw [scan_step_space _ 1 one_ne_zero, scan_step_inert o ho,
    scan_step_space _ 1 one_ne_zero, scan_append]
  have hg : scanA b 1 o spaceChar = some 1 := by
    have := scan_lift b 0 0 0 initChar initChar o spaceChar hb
    simpa using this
  rw [hg]
  show scanA (')' :: []) (0 + 1) _ _ = some 0
  rw [scan_step_close]
  rfl

theorem digitChar_inert (d : Nat) : InertChar (digitChar d) := by
  unfold digitChar
  split <;> decide

theorem natDigitsAux_inert (fuel : Nat) : ∀ (n : Nat) (acc : List Char),
    (∀ c ∈ acc, InertChar c) → ∀ c ∈ natDigitsAux fuel n acc, InertChar c := by
  induction fuel with
  | zero => exact fun n acc hacc => hacc
  | succ fuel ih =>
    intro n acc hacc
    unfold natDigitsAux
    split
    · intro c hc
      rcases List.mem_cons.mp hc with h | h
      · exact h ▸ digitChar_inert n
      · exact hacc c h
    · refine ih (n / 10) _ ?_
      intro c hc
      rcases List.mem_cons.mp hc with h | h
      · exact h ▸ digitChar_inert (n % 10)
      · exact hacc c h

theorem natDisplay_inert (n : Nat) : ∀ c ∈ (natDisplay n).data, InertChar c :=
  natDigitsAux_inert (n + 1) n [] (by simp)

theorem intDisplay_inert (v : Int) : ∀ c ∈ (intDisplay v).data, InertChar c := by
  unfold intDisplay
  split
  · intro c hc
    rw [String.data_append] at hc
    rcases List.mem_append.mp hc with h | h
    · have : c = '-' := by simpa using h
      rw [this]
      decide
    · exact natDisplay_inert _ c h
  · exact natDisplay_inert _

/-- A string of inert characters is a self-contained operand. -/
theorem selfContained_of_inert (s : String) (h : ∀ c ∈ s.data, InertChar c) :
    selfContained s :=
  scan_inert s.data h 0 initChar initChar

/-- String-level shape lemma for the binary operator rendering
`(lhs OP rhs)`: wrapping two self-contained operands with a spaced operator
between them and parentheses around them is self-contained. -/
theorem sc_paren_op (a b : String) (o : Char) (ho : InertChar o)
    (ha : selfContained a) (hb : selfContained b) (opStr : String)
    (hop : opStr.data = [spaceChar, o, spaceChar]) :
    selfContained ("(" ++ a ++ opStr ++ b ++ ")") := by
  unfold selfContained
  have hdata : ("(" ++ a ++ opStr ++ b ++ ")").data
      = '(' :: (a.data ++ spaceChar :: o :: spaceChar :: (b.data ++ [')'])) := by
    simp only [String.data_append, hop]
    simp [List.append_assoc]
  rw [hdata]
  exact scan_binop a.data b.data o ho ha hb initChar initChar

/-- String-level shape lemma for call-style rendering
`name(arg1, arg2, ..., argN)`: a call with an inert name applied to
self-contained arguments is self-contained. -/
theorem sc_call (name : String) (hn : ∀ c ∈ name.data, InertChar c)
    (first : String) (h1 : selfContained first) (args : List String)
    (hargs : ∀ a ∈ args, selfContained a) (s : String)
    (hs : s.data = name.data ++ '(' :: (first.data ++ restArgs (args.map String.data))) :
    selfContained s := by
  unfold selfContained
  rw [hs]
  refine scan_callShape name.data first.data (args.map String.data) hn h1 ?_ initChar initChar
  intro a ha
  obtain ⟨x, hx, rfl⟩ := List.mem_map.mp ha
  exact hargs x hx

/-- Appending inert characters (a swizzle suffix) to a self-contained operand
keeps it self-contained. -/
theorem sc_append_inert (a suf : String) (ha : selfContained a)
    (hs : ∀ c ∈ suf.data, InertChar c) : selfContained (a ++ suf) := by
  unfold selfContained
  rw [String.data_append, scan_append]
  have ha' : scanA a.data 0 initChar initChar = some 0 := ha
  rw [ha']
  exact scan_inert suf.data hs 0 _ _

/-- A two-argument call `name(first, a2)` with an inert name and self-contained
arguments is self-contained. -/
theorem sc_call2 (name first a2 : String) (hn : ∀ c ∈ name.data, InertChar c)
    (h1 : selfContained first) (h2 : selfContained a2) :
    selfContained (name ++ "(" ++ first ++ ", " ++ a2 ++ ")") := by
  refine sc_call name hn first h1 [a2] ?_ _ ?_
  · intro a ha
    rw [List.mem_singleton.mp ha]
    exact h2
  · simp only [List.map_cons, List.map_nil, restArgs, String.data_append]
    simp [List.append_assoc]

/-- A three-argument call `name(first, a2, a3)` with an inert name and
self-contained arguments is self-contained. -/
theorem sc_call3 (name first a2 a3 : String) (hn : ∀ c ∈ name.data, InertChar c)
    (h1 : selfContained first) (h2 : selfContained a2) (h3 : selfContained a3) :
    selfContained (name ++ "(" ++ first ++ ", " ++ a2 ++ ", " ++ a3 ++ ")") := by
  refine sc_call name hn first h1 [a2, a3] ?_ _ ?_
  · intro a ha
    rcases List.mem_cons.mp ha with h | h
    · rwa [h]
    · rw [List.mem_singleton.mp h]
      exact h3
  · simp only [List.map_cons, List.map_nil, restArgs, String.data_append]
    simp [List.append_assoc]

/-- A four-argument call `name(first, a2, a3, a4)` with an inert name and
self-contained arguments is self-contained. -/
theorem sc_call4 (name first a2 a3 a4 : String) (hn : ∀ c ∈ name.data, InertChar c)
    (h1 : selfContained first) (h2 : selfContained a2) (h3 : selfContained a3)
    (h4 : selfContained a4) :
    selfContained (name ++ "(" ++ first ++ ", " ++ a2 ++ ", " ++ a3 ++ ", " ++ a4 ++ ")") := by
  refine sc_call name hn first h1 [a2, a3, a4] ?_ _ ?_
  · intro a ha
    rcases List.mem_cons.mp ha with h | h
    · rwa [h]
    · rcases List.mem_cons.mp h with h | h
      · rwa [h]
      · rw [List.mem_singleton.mp h]
        exact h4
  · simp only [List.map_cons, List.map_nil, restArgs, String.data_append]
    simp [List.append_assoc]

/-- The 3-to-4 promotion shape `vec4(e.xyz, 1)` is self-contained whenever the
base text is. -/
theorem sc_xyz1_shape (e : String) (he : selfContained e) :
    selfContained ("vec4(" ++ e ++ ".xyz, 1)") := by
  refine sc_call "vec4" (by decide) (e ++ ".xyz")
    (sc_append_inert e ".xyz" he (by decide)) ["1"] ?_ _ ?_
  · intro a ha
    rw [List.mem_singleton.mp ha]
    decide
  · simp only [List.map_cons, List.map_nil, restArgs, String.data_append]
    simp [List.append_assoc]

/-- Claim C1: for every pair of expressions `a` and `b` of matching semantic type
and every arithmetic operator OP in add, sub, mul — including the mixed-type
cases `scalar-f32 * FVec4` and `FVec3 * scalar-f32` — the rendered text of
`a OP b` is the open parenthesis, the rendering of `a`, a space, the operator
symbol, a space, the rendering of `b`, and the closing parenthesis.  The
operands quantify over all expressions, so the equation holds under arbitrarily
repeated composition (the result is again an expression the equation applies
to); in the `FVec3 * scalar-f32` case the rhs is a raw `f32` scalar whose
rendering is its `Display` text. -/
theorem c1_operator_rendering :
    (∀ (t : Ty) (a b : Expression t),
      (a.add b).code = "(" ++ a.code ++ " " ++ "+" ++ " " ++ b.code ++ ")") ∧
    (∀ (t : Ty) (a b : Expression t),
      (a.sub b).code = "(" ++ a.code ++ " " ++ "-" ++ " " ++ b.code ++ ")") ∧
    (∀ (t : Ty) (a b : Expression t),
      (a.mul b).code = "(" ++ a.code ++ " " ++ "*" ++ " " ++ b.code ++ ")") ∧
    (∀ (a : Expression (Ty.scalar Scalar.f32)) (b : Expression (Ty.vec4 Scalar.f32)),
      (a.mulScalarVec4 b).code = "(" ++ a.code ++ " " ++ "*" ++ " " ++ b.code ++ ")") ∧
    (∀ (a : Expression (Ty.vec3 Scalar.f32)) (b : F32Text),
      (a.mulVec3Scalar b).code = "(" ++ a.code ++ " " ++ "*" ++ " " ++ b.disp ++ ")") := by
  refine ⟨fun t a b => ?_, fun t a b => ?_, fun t a b => ?_, fun a b => ?_, fun a b => ?_⟩ <;>
    simp [Expression.add, Expression.sub, Expression.mul, Expression.mulScalarVec4,
      Expression.mulVec3Scalar, String.append_assoc]

/-- Claim C3 (code bug): converting a fixed 3-component float vector literal into
an expression does NOT use the 3-vector's own type name: the source binds
`FVec4::wgsl_type_name()` inside the `From<FVec3>` impl, so the rendered text
carries the 4-component type name applied to only three components, while the
2-component int vector and the 4-component float vector conversions do use
their own type names.  Evaluated at the failing input `FVec3` with component
texts 1, 2, 3. -/
theorem c3_fvec3_literal_bug :
    (Expression.fromIVec2 5 7).code = "vec2<i32>(5, 7)" ∧
    (Expression.fromFVec4 ⟨"1"⟩ ⟨"2"⟩ ⟨"3"⟩ ⟨"4"⟩).code = "vec4<f32>(1, 2, 3, 4)" ∧
    (Expression.fromFVec3 ⟨"1"⟩ ⟨"2"⟩ ⟨"3"⟩).code = "vec4<f32>(1, 2, 3)" ∧
    wgslTypeName (Ty.vec3 Scalar.f32) = "vec3<f32>" ∧
    (Expression.fromFVec3 ⟨"1"⟩ ⟨"2"⟩ ⟨"3"⟩).code ≠
      wgslTypeName (Ty.vec3 Scalar.f32) ++ "(1, 2, 3)" := by
  refine ⟨?_, ?_, ?_, ?_, ?_⟩ <;> decide

/-- Claim C5: for every i32 expression `e` and converted min and max expressions,
`clamped` produces an i32-typed expression (visible in the Lean type of the
embedded operation) rendered exactly as the three-argument call text
`clamp(e, min, max)`. -/
theorem c5_clamp_rendering (e minE maxE : Expression (Ty.scalar Scalar.i32)) :
    (e.clamped minE maxE).code =
      "clamp(" ++ e.code ++ ", " ++ minE.code ++ ", " ++ maxE.code ++ ")" := rfl

/-- Claim C6: component accessors and swizzles are pure textual projections,
each rendering as the base expression's text followed by a dot and the
component name(s); they exist only at vector-indexed expression types (3-vectors
expose x, y, z, xy and the 3-to-4 promotion, 4-vectors expose x, y, z, w, xyz);
and the promotion of a 3-vector renders as `vec4(` ++ the base text ++
`.xyz, 1)` with fixed last component 1. -/
theorem c6_accessors_textual :
    (∀ (s : Scalar) (e : Expression (Ty.vec3 s)),
      (e.x3).code = e.code ++ ".x" ∧ (e.y3).code = e.code ++ ".y" ∧
      (e.z3).code = e.code ++ ".z" ∧ (e.xy3).code = e.code ++ ".xy" ∧
      (e.xyz1).code = "vec4(" ++ e.code ++ ".xyz, 1)") ∧
    (∀ (s : Scalar) (e : Expression (Ty.vec4 s)),
      (e.x4).code = e.code ++ ".x" ∧ (e.y4).code = e.code ++ ".y" ∧
      (e.z4).code = e.code ++ ".z" ∧ (e.w4).code = e.code ++ ".w" ∧
      (e.xyz4).code = e.code ++ ".xyz") :=
  ⟨fun _ _ => ⟨rfl, rfl, rfl, rfl, rfl⟩, fun _ _ => ⟨rfl, rfl, rfl, rfl, rfl⟩⟩

/-- Claim C7: expressions have value semantics: duplicating via the `Clone` impl
yields an expression equal to the original (in particular with identical
rendered text), and the stored text, `wgsl()`, and the `Display` rendering all
produce the identical string.  No operation of the embedding mutates an
expression: every operation returns a new value. -/
theorem c7_value_semantics (t : Ty) (e : Expression t) :
    e.clone = e ∧ (e.clone).code = e.code ∧ e.wgsl = e.code ∧
    e.displayText = e.code :=
  ⟨rfl, rfl, rfl, rfl⟩

/-- Claim C8: the conversion from a u32-typed expression to an i32-typed
expression copies the rendered text unchanged — no cast or conversion syntax is
inserted. -/
theorem c8_u32_to_i32_textual (e : Expression (Ty.scalar Scalar.u32)) :
    (Expression.i32FromU32 e).code = e.code := rfl

/-- Claim C2, amended: every expression produced by a composite operation of the
IR — binary operators (including the two mixed-type multiplications), clamp,
component accessors, swizzles, the vector promotion, and literal construction —
renders as a syntactically self-contained operand (balanced parentheses, and no
spaced binary operator at parenthesis nesting depth 0), provided its operand
subexpressions are themselves self-contained (and, for raw float components,
their display texts contain no parenthesis or space).  Binary operators wrap
their result in parentheses; clamp, accessors, swizzles, the promotion, and the
vector literal constructions instead render as function calls or member
accesses, which are self-contained without an outer parenthesis pair. -/
theorem c2_composites_self_contained :
    (∀ (t : Ty) (a b : Expression t), selfContained a.code → selfContained b.code →
      selfContained (a.add b).code ∧ selfContained (a.sub b).code ∧
      selfContained (a.mul b).code) ∧
    (∀ (a : Expression (Ty.scalar Scalar.f32)) (b : Expression (Ty.vec4 Scalar.f32)),
      selfContained a.code → selfContained b.code →
      selfContained (a.mulScalarVec4 b).code) ∧
    (∀ (a : Expression (Ty.vec3 Scalar.f32)) (b : F32Text),
      selfContained a.code → (∀ c ∈ b.disp.data, InertChar c) →
      selfContained (a.mulVec3Scalar b).code) ∧
    (∀ (e minE maxE : Expression (Ty.scalar Scalar.i32)), selfContained e.code →
      selfContained minE.code → selfContained maxE.code →
      selfContained (e.clamped minE maxE).code) ∧
    (∀ (s : Scalar) (e : Expression (Ty.vec3 s)), selfContained e.code →
      selfContained (e.x3).code ∧ selfContained (e.y3).code ∧
      selfContained (e.z3).code ∧ selfContained (e.xy3).code ∧
      selfContained (e.xyz1).code) ∧
    (∀ (s : Scalar) (e : Expression (Ty.vec4 s)), selfContained e.code →
      selfContained (e.x4).code ∧ selfContained (e.y4).code ∧
      selfContained (e.z4).code ∧ selfContained (e.w4).code ∧
      selfContained (e.xyz4).code) ∧
    (∀ (x y : Expression (Ty.scalar Scalar.i32)), selfContained x.code →
      selfContained y.code → selfContained (Expression.construct x y).code) ∧
    (∀ v : Int, selfContained (Expression.fromI32 v).code) ∧
    (∀ n : Nat, selfContained (Expression.fromU32 n).code) ∧
    (∀ x y : Int, selfContained (Expression.fromIVec2 x y).code) ∧
    (∀ x y z w : F32Text, (∀ c ∈ x.disp.data, InertChar c) →
      (∀ c ∈ y.disp.data, InertChar c) → (∀ c ∈ z.disp.data, InertChar c) →
      (∀ c ∈ w.disp.data, InertChar c) →
      selfContained (Expression.fromFVec4 x y z w).code) ∧
    (∀ x y z : F32Text, (∀ c ∈ x.disp.data, InertChar c) →
      (∀ c ∈ y.disp.data, InertChar c) → (∀ c ∈ z.disp.data, InertChar c) →
      selfContained (Expression.fromFVec3 x y z).code) ∧
    (∀ (e : Expression (Ty.scalar Scalar.u32)), selfContained e.code →
      selfContained (Expression.i32FromU32 e).code) := by
  refine ⟨?_, ?_, ?_, ?_, ?_, ?_, ?_, ?_, ?_, ?_, ?_, ?_, ?_⟩
  · intro t a b ha hb
    exact ⟨sc_paren_op a.code b.code '+' (by decide) ha hb " + " (by decide),
      sc_paren_op a.code b.code '-' (by decide) ha hb " - " (by decide),
      sc_paren_op a.code b.code '*' (by decide) ha hb " * " (by decide)⟩
  · intro a b ha hb
    exact sc_paren_op a.code b.code '*' (by decide) ha hb " * " (by decide)
  · intro a b ha hb
    exact sc_paren_op a.code b.disp '*' (by decide) ha
      (selfContained_of_inert b.disp hb) " * " (by decide)
  · intro e minE maxE he hm hM
    exact sc_call3 "clamp" e.code minE.code maxE.code (by decide) he hm hM
  · intro s e he
    exact ⟨sc_append_inert e.code ".x" he (by decide),
      sc_append_inert e.code ".y" he (by decide),
      sc_append_inert e.code ".z" he (by decide),
      sc_append_inert e.code ".xy" he (by decide),
      sc_xyz1_shape e.code he⟩
  · intro s e he
    exact ⟨sc_append_inert e.code ".x" he (by decide),
      sc_append_inert e.code ".y" he (by decide),
      sc_append_inert e.code ".z" he (by decide),
      sc_append_inert e.code ".w" he (by decide),
      sc_append_inert e.code ".xyz" he (by decide)⟩
  · intro x y hx hy
    exact sc_call2 (wgslTypeName (Ty.vec2 Scalar.i32)) x.code y.code (by decide) hx hy
  · intro v
    exact selfContained_of_inert (intDisplay v) (intDisplay_inert v)
  · intro n
    exact selfContained_of_inert (natDisplay n) (natDisplay_inert n)
  · intro x y
    exact sc_call2 (wgslTypeName (Ty.vec2 Scalar.i32)) (intDisplay x) (intDisplay y)
      (by decide) (selfContained_of_inert _ (intDisplay_inert x))
      (selfContained_of_inert _ (intDisplay_inert y))
  · intro x y z w hx hy hz hw
    exact sc_call4 (wgslTypeName (Ty.vec4 Scalar.f32)) x.disp y.disp z.disp w.disp
      (by decide) (selfContained_of_inert _ hx) (selfContained_of_inert _ hy)
      (selfContained_of_inert _ hz) (selfContained_of_inert _ hw)
  · intro x y z hx hy hz
    exact sc_call3 (wgslTypeName (Ty.vec4 Scalar.f32)) x.disp y.disp z.disp
      (by decide) (selfContained_of_inert _ hx) (selfContained_of_inert _ hy)
      (selfContained_of_inert _ hz)
  · intro e he
    exact he

/-- Witness for claim C2's amended theorem at concrete inputs. -/
theorem c2_composites_self_contained_witness :
    selfContained ((Expression.new (Ty.scalar Scalar.i32) "x").add
      (Expression.new (Ty.scalar Scalar.i32) "y")).code ∧
    selfContained ((Expression.new (Ty.scalar Scalar.i32) "i").clamped
      (Expression.new (Ty.scalar Scalar.i32) "0")
      (Expression.new (Ty.scalar Scalar.i32) "w")).code ∧
    selfContained (Expression.fromFVec3 ⟨"1"⟩ ⟨"2.5"⟩ ⟨"3"⟩).code :=
  ⟨(c2_composites_self_contained.1 (Ty.scalar Scalar.i32) _ _ (by decide) (by decide)).1,
    c2_composites_self_contained.2.2.2.1 _ _ _ (by decide) (by decide) (by decide),
    c2_composites_self_contained.2.2.2.2.2.2.2.2.2.2.2.1 ⟨"1"⟩ ⟨"2.5"⟩ ⟨"3"⟩
      (by decide) (by decide) (by decide)⟩

/-- Counterexample to claim C2 as stated: the clamp operation is a composite
operation of the IR whose rendered text is not wrapped in parentheses (it is a
function call, beginning with the letter c, not an open parenthesis). -/
theorem c2_clamp_not_parenthesized :
    ((Expression.new (Ty.scalar Scalar.i32) "x").clamped
      (Expression.new (Ty.scalar Scalar.i32) "0")
      (Expression.new (Ty.scalar Scalar.i32) "9")).code = "clamp(x, 0, 9)" ∧
    ((Expression.new (Ty.scalar Scalar.i32) "x").clamped
      (Expression.new (Ty.scalar Scalar.i32) "0")
      (Expression.new (Ty.scalar Scalar.i32) "9")).code.front ≠ '(' := by
  refine ⟨?_, ?_⟩ <;> decide

/-- Claim C4: the catalog of binary operations the source defines rejects
mismatched operand types at construction time: every available signature either
has identical lhs, rhs and result types (the generic impls, after the rhs
`Into` conversion), or is one of the two explicitly defined mixed
multiplications; the result type of a given operator and operand pair is
unique; and for matching types every operator is available for every semantic
type.  Every operation of the embedding is a total function, so no composition
can fail at run time. -/
theorem c4_static_type_discipline :
    (∀ (op : BinOpName) (a b c : Ty), OpSig op a b c →
      (a = b ∧ c = a) ∨
      (op = BinOpName.mul ∧ a = Ty.scalar Scalar.f32 ∧ b = Ty.vec4 Scalar.f32 ∧
        c = Ty.vec4 Scalar.f32) ∨
      (op = BinOpName.mul ∧ a = Ty.vec3 Scalar.f32 ∧ b = Ty.scalar Scalar.f32 ∧
        c = Ty.vec3 Scalar.f32)) ∧
    (∀ (op : BinOpName) (a b c₁ c₂ : Ty), OpSig op a b c₁ → OpSig op a b c₂ → c₁ = c₂) ∧
    (∀ (op : BinOpName) (t : Ty), OpSig op t t t) := by
  refine ⟨?_, ?_, fun op t => OpSig.homo op t⟩
  · intro op a b c h
    cases h with
    | homo op t => exact Or.inl ⟨rfl, rfl⟩
    | scalarTimesVec4 => exact Or.inr (Or.inl ⟨rfl, rfl, rfl, rfl⟩)
    | vec3TimesScalar => exact Or.inr (Or.inr ⟨rfl, rfl, rfl, rfl⟩)
  · intro op a b c₁ c₂ h₁ h₂
    cases h₁ <;> cases h₂ <;> rfl

/-- Witness for claim C4's theorem at the mixed scalar-times-vec4 signature. -/
theorem c4_static_type_discipline_witness :
    (Ty.scalar Scalar.f32 = Ty.vec4 Scalar.f32 ∧
      Ty.vec4 Scalar.f32 = Ty.scalar Scalar.f32) ∨
    (BinOpName.mul = BinOpName.mul ∧ Ty.scalar Scalar.f32 = Ty.scalar Scalar.f32 ∧
      Ty.vec4 Scalar.f32 = Ty.vec4 Scalar.f32 ∧ Ty.vec4 Scalar.f32 = Ty.vec4 Scalar.f32) ∨
    (BinOpName.mul = BinOpName.mul ∧ Ty.scalar Scalar.f32 = Ty.vec3 Scalar.f32 ∧
      Ty.vec4 Scalar.f32 = Ty.scalar Scalar.f32 ∧ Ty.vec4 Scalar.f32 = Ty.vec3 Scalar.f32) :=
  c4_static_type_discipline.1 BinOpName.mul _ _ _ OpSig.scalarTimesVec4

/-- Claim C10: expression construction and rendering are deterministic — the
rendered text of every composite operation is a function of the rendered texts
of its inputs alone, independent even of the phantom semantic type and with no
hidden state: two constructions over operands with equal texts produce
byte-for-byte equal texts. -/
theorem c10_deterministic_rendering :
    (∀ (t u : Ty) (a b : Expression t) (a₂ b₂ : Expression u),
      a.code = a₂.code → b.code = b₂.code →
      (a.add b).code = (a₂.add b₂).code ∧ (a.sub b).code = (a₂.sub b₂).code ∧
      (a.mul b).code = (a₂.mul b₂).code) ∧
    (∀ (e minE maxE e₂ minE₂ maxE₂ : Expression (Ty.scalar Scalar.i32)),
      e.code = e₂.code → minE.code = minE₂.code → maxE.code = maxE₂.code →
      (e.clamped minE maxE).code = (e₂.clamped minE₂ maxE₂).code) ∧
    (∀ (x y x₂ y₂ : Expression (Ty.scalar Scalar.i32)),
      x.code = x₂.code → y.code = y₂.code →
      (Expression.construct x y).code = (Expression.construct x₂ y₂).code) ∧
    (∀ (s u : Scalar) (e : Expression (Ty.vec3 s)) (e₂ : Expression (Ty.vec3 u)),
      e.code = e₂.code →
      (e.x3).code = (e₂.x3).code ∧ (e.xyz1).code = (e₂.xyz1).code) ∧
    (∀ (t : Ty) (c : String), (Expression.new t c).code = c) := by
  refine ⟨?_, ?_, ?_, ?_, fun t c => rfl⟩
  · intro t u a b a₂ b₂ h₁ h₂
    refine ⟨?_, ?_, ?_⟩ <;>
      simp [Expression.add, Expression.sub, Expression.mul, h₁, h₂]
  · intro e minE maxE e₂ minE₂ maxE₂ h₁ h₂ h₃
    simp [Expression.clamped, h₁, h₂, h₃]
  · intro x y x₂ y₂ h₁ h₂
    simp [Expression.construct, h₁, h₂]
  · intro s u e e₂ h
    exact ⟨by simp [Expression.x3, h], by simp [Expression.xyz1, h]⟩

/-- Witness for claim C10's theorem: the same operand texts under different
phantom types produce identical rendered sums. -/
theorem c10_deterministic_rendering_witness :
    ((Expression.new (Ty.scalar Scalar.i32) "x").add
        (Expression.new (Ty.scalar Scalar.i32) "y")).code =
      ((Expression.new (Ty.scalar Scalar.u32) "x").add
        (Expression.new (Ty.scalar Scalar.u32) "y")).code ∧
    ((Expression.new (Ty.scalar Scalar.i32) "i").clamped
        (Expression.new (Ty.scalar Scalar.i32) "0")
        (Expression.new (Ty.scalar Scalar.i32) "9")).code =
      ((Expression.new (Ty.scalar Scalar.i32) "i").clamped
        (Expression.new (Ty.scalar Scalar.i32) "0")
        (Expression.new (Ty.scalar Scalar.i32) "9")).code :=
  ⟨(c10_deterministic_rendering.1 (Ty.scalar Scalar.i32) (Ty.scalar Scalar.u32)
      _ _ _ _ rfl rfl).1,
    c10_deterministic_rendering.2.1 _ _ _ _ _ _ rfl rfl rfl⟩

end GpuImg
